import Mathlib

/-!
Verification of `tools/performance_plotter.py`.

The script is a straight-line pipeline: run `pidstat`, parse its stdout
into rows, aggregate CPU%/memory% by timestamp, render an HTML report.
This file embeds each pure step of the pipeline as a Lean function,
working over `List Char` for the Python `str` methods so that every
definition evaluates inside the kernel, and proves the stated properties.
-/

namespace Plotter

/-! ### Python string primitives

Models of the `str` methods the script uses, written structurally over
the character list of a `String`.  `Char.isWhitespace` covers the
whitespace characters pidstat output can contain (space, tab, CR, LF).
-/

/-- Model of Python `str.strip()`: drop leading and trailing whitespace. -/
def pyStrip (cs : List Char) : List Char :=
  ((cs.dropWhile Char.isWhitespace).reverse.dropWhile Char.isWhitespace).reverse

/-- Model of Python `str.split()` with no separator: split on runs of
whitespace, discarding empty tokens.  `cur` accumulates the current word
in reverse. -/
def pyWordsAux (cur : List Char) : List Char → List String
  | [] => if cur.isEmpty then [] else [String.mk cur.reverse]
  | c :: cs =>
      if Char.isWhitespace c then
        if cur.isEmpty then pyWordsAux [] cs
        else String.mk cur.reverse :: pyWordsAux [] cs
      else pyWordsAux (c :: cur) cs

def pyWords (cs : List Char) : List String := pyWordsAux [] cs

/-- Split a character list at newline characters.  Model of Python
`str.splitlines()` for the line terminators that occur in `pidstat`
output; a trailing newline yields a final empty line, which the parser
skips as blank, and a `"\r\n"` terminator leaves a trailing CR that
`pyStrip` removes, so the parsed rows agree with `splitlines`. -/
def splitLinesChars : List Char → List (List Char)
  | [] => [[]]
  | c :: cs =>
      if c = '\n' then [] :: splitLinesChars cs
      else
        match splitLinesChars cs with
        | [] => [[c]]
        | l :: ls => (c :: l) :: ls

def pySplitLines (stdout : String) : List String :=
  (splitLinesChars stdout.data).map String.mk

/-- Model of Python `str.startswith(p)`. -/
def startsWithChars : List Char → List Char → Bool
  | _, [] => true
  | [], _ :: _ => false
  | c :: cs, p :: ps => c == p && startsWithChars cs ps

/-! ### The parser (`parse_pidstat_output`) -/

/-- The fixed column schema, `TABLE_COLUMNS` in the script. -/
def TABLE_COLUMNS : List String :=
  ["time", "uid", "pid", "usr_pct", "system_pct", "guest_pct", "cpu_pct",
   "cpu", "minflt_s", "majflt_s", "vsz", "rss", "mem_pct", "kb_rd_s",
   "kb_wr_s", "kb_ccwr_s", "iodelay"]

/-- One parsed pidstat row: the dictionary `dict(zip(TABLE_COLUMNS, parts))`,
whose 17 keys are fixed, embedded as a structure with one `String` field
per column. -/
structure Row where
  time : String
  uid : String
  pid : String
  usr_pct : String
  system_pct : String
  guest_pct : String
  cpu_pct : String
  cpu : String
  minflt_s : String
  majflt_s : String
  vsz : String
  rss : String
  mem_pct : String
  kb_rd_s : String
  kb_wr_s : String
  kb_ccwr_s : String
  iodelay : String
  deriving DecidableEq, Repr

/-- The line filter of the parser loop:
`if not stripped or stripped.startswith(("Linux", "#", "Average:"))`. -/
def isSkipped (stripped : List Char) : Bool :=
  stripped.isEmpty
    || startsWithChars stripped "Linux".data
    || startsWithChars stripped "#".data
    || startsWithChars stripped "Average:".data

/-- The body of the parser loop for one line: strip, skip marker lines,
split on whitespace, drop lines with fewer than `len(TABLE_COLUMNS)`
tokens, otherwise zip the tokens positionally into a row.  Since
`TABLE_COLUMNS` has 17 distinct names, `dict(zip(TABLE_COLUMNS, parts))`
assigns `parts[i]` to column `i` and ignores any extra tokens. -/
def parseLine (line : String) : Option Row :=
  let stripped := pyStrip line.data
  if isSkipped stripped then none
  else
    let parts := pyWords stripped
    if parts.length < TABLE_COLUMNS.length then none
    else some
      { time := parts.getD 0 "", uid := parts.getD 1 "", pid := parts.getD 2 "",
        usr_pct := parts.getD 3 "", system_pct := parts.getD 4 "",
        guest_pct := parts.getD 5 "", cpu_pct := parts.getD 6 "",
        cpu := parts.getD 7 "", minflt_s := parts.getD 8 "",
        majflt_s := parts.getD 9 "", vsz := parts.getD 10 "",
        rss := parts.getD 11 "", mem_pct := parts.getD 12 "",
        kb_rd_s := parts.getD 13 "", kb_wr_s := parts.getD 14 "",
        kb_ccwr_s := parts.getD 15 "", iodelay := parts.getD 16 "" }

/-- `parse_pidstat_output`: the `for line in stdout.splitlines()` loop,
appending one row per line that survives the filters. -/
def parse_pidstat_output (stdout : String) : List Row :=
  (pySplitLines stdout).filterMap parseLine

/-! ### Python `float()` and the aggregation loop of `build_html` -/

/-- Numeric value of a digit string, most significant digit first. -/
def digitsToNat (cs : List Char) : ℕ :=
  cs.foldl (fun n c => 10 * n + (c.toNat - 48)) 0

/-- Model of Python `float(s)` on the literal forms pidstat output can
contain: an optional sign, a decimal mantissa (`digits`, `digits.`,
`.digits` or `digits.digits`) and an optional `e`/`E` exponent; `none`
models the `ValueError` CPython raises otherwise.  The exact real value
is kept (ℚ) instead of its IEEE-754 rounding; CPython's further forms
(surrounding whitespace, underscores, `inf`, `nan`) are not modelled. -/
def pyFloat? (s : String) : Option ℚ :=
  let (sign, rest) :=
    match s.data with
    | '+' :: t => ((1 : ℚ), t)
    | '-' :: t => (-1, t)
    | t => (1, t)
  let intPart := rest.takeWhile Char.isDigit
  let afterInt := rest.dropWhile Char.isDigit
  let (fracPart, rest2) :=
    match afterInt with
    | '.' :: t => (t.takeWhile Char.isDigit, t.dropWhile Char.isDigit)
    | t => ([], t)
  if intPart.isEmpty && fracPart.isEmpty then none
  else
    let mant : ℚ := digitsToNat intPart + digitsToNat fracPart / 10 ^ fracPart.length
    match rest2 with
    | [] => some (sign * mant)
    | e :: t =>
        if e = 'e' || e = 'E' then
          let (esign, t2) :=
            match t with
            | '+' :: u => ((1 : Int), u)
            | '-' :: u => (-1, u)
            | u => (1, u)
          if !t2.isEmpty && t2.all Char.isDigit then
            some (sign * mant * (10 : ℚ) ^ (esign * (digitsToNat t2 : Int)))
          else none
        else none

/-- The state threaded through the aggregation loop of `build_html`:
`aggregated` models the dict from timestamp to its running `cpu`/`mem`
sums — Python dicts preserve insertion order, so an insertion-ordered
association list of `(time, cpu, mem)` entries — and `time_order` the
separate first-seen list. -/
structure AggState where
  aggregated : List (String × ℚ × ℚ)
  time_order : List String
  deriving DecidableEq, Repr

/-- `time_key in aggregated`. -/
def containsKey : List (String × ℚ × ℚ) → String → Bool
  | [], _ => false
  | (t', _, _) :: rest, t => t' == t || containsKey rest t

/-- `aggregated[t]["cpu"] += c; aggregated[t]["mem"] += m`: add to the
entry holding key `t` (the loop only does this when `t` is present). -/
def addToKey : List (String × ℚ × ℚ) → String → ℚ → ℚ → List (String × ℚ × ℚ)
  | [], _, _, _ => []
  | (t', c', m') :: rest, t, c, m =>
      if t' = t then (t', c' + c, m' + m) :: rest
      else (t', c', m') :: addToKey rest t c m

/-- One iteration of the aggregation loop: convert `cpu_pct` and
`mem_pct` with `float()` (propagating `ValueError` as `none`), create a
zeroed entry and record first-seen order on a new timestamp, then add
both values to the running sums. -/
def aggStep (st : AggState) (row : Row) : Option AggState := do
  let c ← pyFloat? row.cpu_pct
  let m ← pyFloat? row.mem_pct
  let t := row.time
  let st1 :=
    if containsKey st.aggregated t then st
    else { aggregated := st.aggregated ++ [(t, 0, 0)],
           time_order := st.time_order ++ [t] }
  return { st1 with aggregated := addToKey st1.aggregated t c m }

/-- `for row in rows: ...` over the aggregation state. -/
def aggregate : List Row → AggState → Option AggState
  | [], st => some st
  | row :: rest, st => (aggStep st row).bind (aggregate rest)

/-- The whole aggregation loop of `build_html`, started from the empty
dict and empty order list. -/
def runAgg (rows : List Row) : Option AggState :=
  aggregate rows { aggregated := [], time_order := [] }

/-- `aggregated[t]["cpu"]` (0 when absent; `build_html` only looks up
timestamps present in the dict). -/
def lookupCpu : List (String × ℚ × ℚ) → String → ℚ
  | [], _ => 0
  | (t', c', _) :: rest, t => if t' = t then c' else lookupCpu rest t

/-- `aggregated[t]["mem"]` (0 when absent). -/
def lookupMem : List (String × ℚ × ℚ) → String → ℚ
  | [], _ => 0
  | (t', _, m') :: rest, t => if t' = t then m' else lookupMem rest t

/-- The `chart_data` dict embedded in the page:
`times = time_order`, `cpu_values`/`mem_values` the comprehensions over
`times`. -/
structure ChartData where
  labels : List String
  cpu : List ℚ
  mem : List ℚ
  deriving DecidableEq, Repr

def chartOf (st : AggState) : ChartData :=
  { labels := st.time_order,
    cpu := st.time_order.map (lookupCpu st.aggregated),
    mem := st.time_order.map (lookupMem st.aggregated) }

/-- The chart data `build_html` computes for `rows`; `none` when the
aggregation loop raises `ValueError`. -/
def chartData? (rows : List Row) : Option ChartData :=
  (runAgg rows).map chartOf

/-! ### HTML escaping and the rendered fragments -/

/-- Replacement for one character under Python `html.escape` (default
`quote=True`): the five special characters become entities, everything
else is untouched. -/
def escapeChar (c : Char) : String :=
  if c = '&' then "&amp;"
  else if c = '<' then "&lt;"
  else if c = '>' then "&gt;"
  else if c = '"' then "&quot;"
  else if c = '\'' then "&#x27;"
  else String.singleton c

def escapeChars : List Char → List Char
  | [] => []
  | c :: cs => (escapeChar c).data ++ escapeChars cs

/-- Model of `html.escape(s)`.  CPython applies `str.replace` for `&`
first and then for the other four characters; as no replacement output
contains a character replaced later, the chain acts independently on
each input character, i.e. as this character-wise map. -/
def htmlEscape (s : String) : String := String.mk (escapeChars s.data)

/-- `escaped_raw_output = html.escape(raw_output)`. -/
def escaped_raw_output (raw_output : String) : String := htmlEscape raw_output

/-- One `<tr>` of the samples table: the f-string of the `row_cells`
generator, every interpolated value HTML-escaped. -/
def rowCell (row : Row) : String :=
  "<tr><td>" ++ htmlEscape row.time ++ "</td><td>" ++ htmlEscape row.pid
    ++ "</td><td>" ++ htmlEscape row.cpu_pct ++ "</td><td>"
    ++ htmlEscape row.mem_pct ++ "</td></tr>"

/-- `"\n".join(...)` over the rendered rows. -/
def joinLines : List String → String
  | [] => ""
  | [s] => s
  | s :: rest => s ++ "\n" ++ joinLines rest

def row_cells (rows : List Row) : String := joinLines (rows.map rowCell)

/-- The data `build_html` computes and injects into the page template:
the chart-data literal, the table body and the escaped raw block.  The
surrounding template text is constant markup and is not modelled.  The
aggregation loop runs first in the source, so a `ValueError` there
(`none`) prevents any rendering. -/
structure Report where
  chart : ChartData
  cells : String
  raw_pre : String
  deriving DecidableEq, Repr

def build_html? (rows : List Row) (raw_output : String) : Option Report :=
  (runAgg rows).map fun st =>
    { chart := chartOf st,
      cells := row_cells rows,
      raw_pre := escaped_raw_output raw_output }

/-! ### `run_pidstat` and `main` -/

/-- The argument vector `run_pidstat` passes to `subprocess.run`. -/
def run_pidstat_command (pid : Option Int) (interval count : Int) : List String :=
  let pid_arg := match pid with
    | none => "ALL"
    | some p => toString p
  ["pidstat", "-durh", "-p", pid_arg, toString interval, toString count]

/-- Outcome of the `subprocess.run(command, check=True, ...)` call:
either captured stdout, or a non-zero exit status, on which `check=True`
raises `CalledProcessError`. -/
inductive PidstatResult where
  | ok (stdout : String)
  | failed (exitCode : Int)
  deriving DecidableEq, Repr

/-- The message of the `SystemExit` raised on an empty parse. -/
def noRowsMsg : String := "No pidstat rows parsed; check PID and pidstat output"

/-- How a run of `main` ends, after the pidstat subprocess finishes:
`success` writes the report and exits 0; `subprocessFailure` is the
unhandled `CalledProcessError` from `check=True`; `noRowsError` the
explicit `SystemExit`; `conversionError` an unhandled `ValueError` from
`float()` inside `build_html`.  Every non-`success` outcome terminates
the interpreter with a non-zero status and reaches no `write_report`. -/
inductive MainOutcome where
  | success (report : Report)
  | subprocessFailure (exitCode : Int)
  | noRowsError (msg : String)
  | conversionError
  deriving DecidableEq, Repr

/-- `main` after argument parsing: run pidstat, parse, fail on an empty
parse, build the report, write it. -/
def mainRun (ps : PidstatResult) : MainOutcome :=
  match ps with
  | .failed code => .subprocessFailure code
  | .ok stdout =>
      let rows := parse_pidstat_output stdout
      if rows = [] then .noRowsError noRowsMsg
      else
        match build_html? rows stdout with
        | none => .conversionError
        | some report => .success report

/-- A run exits with status 0 exactly on `success` (an uncaught
`CalledProcessError` or `ValueError`, and `SystemExit` with a string
argument, all exit non-zero). -/
def exitCodeZero : MainOutcome → Bool
  | .success _ => true
  | _ => false

/-- `write_report` is reached only on `success`. -/
def writesReport : MainOutcome → Bool
  | .success _ => true
  | _ => false

/-! ### Specification-side functions

Direct renderings of the spec's wording ("summed CPU% across all records
sharing that timestamp", "first-seen order of timestamps"), used to
state what the aggregation loop must produce. -/

/-- The numeric value of a field that `float()` accepts (0 as a dummy for
rejected fields; the theorems only use it where conversion succeeds). -/
def floatValue (s : String) : ℚ := (pyFloat? s).getD 0

/-- Sum of the cpu% fields of all records whose timestamp is `t`. -/
def sumCpu : List Row → String → ℚ
  | [], _ => 0
  | r :: rs, t => (if r.time = t then floatValue r.cpu_pct else 0) + sumCpu rs t

/-- Sum of the mem% fields of all records whose timestamp is `t`. -/
def sumMem : List Row → String → ℚ
  | [], _ => 0
  | r :: rs, t => (if r.time = t then floatValue r.mem_pct else 0) + sumMem rs t

/-- First-occurrence order: the timestamps in input order with later
duplicates (and members of `seen`) removed. -/
def firstSeenOrder (seen : List String) : List String → List String
  | [] => []
  | t :: ts =>
      if t ∈ seen then firstSeenOrder seen ts
      else t :: firstSeenOrder (seen ++ [t]) ts

/-- Invariant of the aggregation loop: `time_order` lists exactly the
keys of the `aggregated` dict. -/
def goodState (st : AggState) : Prop :=
  ∀ t, t ∈ st.time_order ↔ containsKey st.aggregated t = true

/-! ### Binary64 rounding and the accumulation as the interpreter runs it

`pyFloat?`, `addToKey` and `aggregate` above keep the exact rational
value of every conversion and addition.  CPython's `float` is an
IEEE-754 binary64 value, so `float(...)` and each `+=` of the loop
additionally round their exact result to 53 significant bits (round to
nearest, ties to even).  The functions below model that rounding and the
aggregation loop under it; the exact-valued loop above is the idealised
(real-number) reading of the same code. -/

/-- Fuel-based binary logarithm: `log2Fuel fuel n` = ⌊log₂ n⌋ for
`1 ≤ n ≤ fuel` (and 0 for n = 0). -/
def log2Fuel : ℕ → ℕ → ℕ
  | 0, _ => 0
  | fuel + 1, n => if 2 ≤ n then log2Fuel fuel (n / 2) + 1 else 0

def natLog2 (n : ℕ) : ℕ := log2Fuel n n

/-- ⌊log₂ a⌋ of a positive rational.  For a ≥ 1 this is ⌊log₂ ⌊a⌋⌋; for
0 < a < 1, with m = ⌊log₂ (den/num)⌋ it is −m when a = 2^−m exactly and
−m − 1 otherwise. -/
def ratFloorLog2 (a : ℚ) : ℤ :=
  if 1 ≤ a then (natLog2 (a.num.toNat / a.den) : ℤ)
  else
    let p := a.num.toNat
    let q := a.den
    let m := natLog2 (q / p)
    if q = p * 2 ^ m then -(m : ℤ) else -(m : ℤ) - 1

/-- Round a positive rational to 53 significant bits, round to nearest
with ties to even: with e = ⌊log₂ a⌋ − 52 the scaled value a·2^−e lies
in [2^52, 2^53); it is the integer fraction `num / den` below, rounded
to the integer significand n by comparing twice the remainder with the
denominator (ties going to the even neighbour), and the result is
n·2^e.  The arithmetic is carried out on numerator and denominator so
that every step is plain natural-number arithmetic. -/
def roundPos53 (a : ℚ) : ℚ :=
  let e : ℤ := ratFloorLog2 a - 52
  let scaled : ℕ × ℕ :=
    if e ≤ 0 then (a.num.toNat * 2 ^ (-e).toNat, a.den)
    else (a.num.toNat, a.den * 2 ^ e.toNat)
  let num := scaled.1
  let den := scaled.2
  let f := num / den
  let r := num % den
  let n : ℕ :=
    if 2 * r < den then f
    else if den < 2 * r then f + 1
    else if f % 2 = 0 then f else f + 1
  if 0 ≤ e then mkRat (Int.ofNat (n * 2 ^ e.toNat)) 1
  else mkRat (Int.ofNat n) (2 ^ (-e).toNat)

/-- Rounding an exact rational result to IEEE-754 binary64, as every
CPython float operation does, for magnitudes in the normal range
(overflow and subnormal underflow do not occur at the magnitudes
handled here). -/
def roundDouble (a : ℚ) : ℚ :=
  if a = 0 then 0
  else if a < 0 then -roundPos53 (-a)
  else roundPos53 a

/-- CPython `float(s)` including its final rounding: the correctly
rounded binary64 value of the literal's exact value. -/
def pyFloat64? (s : String) : Option ℚ := (pyFloat? s).map roundDouble

/-- `addToKey` with the source's binary64 `+=`: every addition rounds
its exact sum to binary64. -/
def addToKey64 : List (String × ℚ × ℚ) → String → ℚ → ℚ → List (String × ℚ × ℚ)
  | [], _, _, _ => []
  | (t', c', m') :: rest, t, c, m =>
      if t' = t then (t', roundDouble (c' + c), roundDouble (m' + m)) :: rest
      else (t', c', m') :: addToKey64 rest t c m

/-- One iteration of the aggregation loop under binary64 arithmetic. -/
def aggStep64 (st : AggState) (row : Row) : Option AggState := do
  let c ← pyFloat64? row.cpu_pct
  let m ← pyFloat64? row.mem_pct
  let t := row.time
  let st1 :=
    if containsKey st.aggregated t then st
    else { aggregated := st.aggregated ++ [(t, 0, 0)],
           time_order := st.time_order ++ [t] }
  return { st1 with aggregated := addToKey64 st1.aggregated t c m }

def aggregate64 : List Row → AggState → Option AggState
  | [], st => some st
  | row :: rest, st => (aggStep64 st row).bind (aggregate64 rest)

/-- The aggregation loop of `build_html` under binary64 arithmetic. -/
def runAgg64 (rows : List Row) : Option AggState :=
  aggregate64 rows { aggregated := [], time_order := [] }

/-- Sample-row builder for the concrete witnesses: a row whose remaining
columns hold arbitrary fixed pidstat-like values. -/
def mkSample (time pid cpuPct memPct : String) : Row :=
  { time := time, uid := "0", pid := pid, usr_pct := "1.0", system_pct := "2.0",
    guest_pct := "0.0", cpu_pct := cpuPct, cpu := "1", minflt_s := "0.0",
    majflt_s := "0.0", vsz := "1000", rss := "2000", mem_pct := memPct,
    kb_rd_s := "0.0", kb_wr_s := "0.0", kb_ccwr_s := "0.0", iodelay := "0" }

/-! ### Lemmas about the aggregation dict -/

theorem containsKey_addToKey (agg : List (String × ℚ × ℚ)) (k t : String) (c m : ℚ) :
    containsKey (addToKey agg k c m) t = containsKey agg t := by
  induction agg with
  | nil => rfl
  | cons e rest ih =>
      obtain ⟨tk, ck, mk⟩ := e
      by_cases h : tk = k
      · simp [addToKey, containsKey, h]
      · simp [addToKey, containsKey, h, ih]

theorem containsKey_append_single (agg : List (String × ℚ × ℚ)) (k t : String) (c m : ℚ) :
    containsKey (agg ++ [(k, c, m)]) t = (containsKey agg t || (k == t)) := by
  induction agg with
  | nil => simp [containsKey]
  | cons e rest ih =>
      obtain ⟨tk, ck, mk⟩ := e
      by_cases h : tk = t <;> simp [containsKey, h, ih, Bool.or_assoc]

theorem lookupCpu_addToKey (agg : List (String × ℚ × ℚ)) (k : String) (c m : ℚ)
    (h : containsKey agg k = true) (t : String) :
    lookupCpu (addToKey agg k c m) t = lookupCpu agg t + (if k = t then c else 0) := by
  induction agg with
  | nil => simp [containsKey] at h
  | cons e rest ih =>
      obtain ⟨tk, ck, mk⟩ := e
      by_cases hk : tk = k
      · subst hk
        by_cases ht : tk = t
        · subst ht; simp [addToKey, lookupCpu]
        · simp [addToKey, lookupCpu, ht]
      · simp only [containsKey, Bool.or_eq_true, beq_iff_eq] at h
        rcases h with h | h
        · exact absurd h hk
        · by_cases ht : tk = t
          · subst ht
            have hkt : ¬ k = tk := fun hh => hk hh.symm
            simp [addToKey, lookupCpu, hk, hkt]
          · simp [addToKey, lookupCpu, hk, ht, ih h]

theorem lookupMem_addToKey (agg : List (String × ℚ × ℚ)) (k : String) (c m : ℚ)
    (h : containsKey agg k = true) (t : String) :
    lookupMem (addToKey agg k c m) t = lookupMem agg t + (if k = t then m else 0) := by
  induction agg with
  | nil => simp [containsKey] at h
  | cons e rest ih =>
      obtain ⟨tk, ck, mk⟩ := e
      by_cases hk : tk = k
      · subst hk
        by_cases ht : tk = t
        · subst ht; simp [addToKey, lookupMem]
        · simp [addToKey, lookupMem, ht]
      · simp only [containsKey, Bool.or_eq_true, beq_iff_eq] at h
        rcases h with h | h
        · exact absurd h hk
        · by_cases ht : tk = t
          · subst ht
            have hkt : ¬ k = tk := fun hh => hk hh.symm
            simp [addToKey, lookupMem, hk, hkt]
          · simp [addToKey, lookupMem, hk, ht, ih h]

theorem lookupCpu_append_zero (agg : List (String × ℚ × ℚ)) (k t : String) :
    lookupCpu (agg ++ [(k, 0, 0)]) t = lookupCpu agg t := by
  induction agg with
  | nil => simp [lookupCpu]
  | cons e rest ih =>
      obtain ⟨tk, ck, mk⟩ := e
      by_cases h : tk = t
      · simp [lookupCpu, h]
      · simpa [lookupCpu, h] using ih

theorem lookupMem_append_zero (agg : List (String × ℚ × ℚ)) (k t : String) :
    lookupMem (agg ++ [(k, 0, 0)]) t = lookupMem agg t := by
  induction agg with
  | nil => simp [lookupMem]
  | cons e rest ih =>
      obtain ⟨tk, ck, mk⟩ := e
      by_cases h : tk = t
      · simp [lookupMem, h]
      · simpa [lookupMem, h] using ih

/-! ### Lemmas about first-seen order -/

theorem firstSeenOrder_congr (l : List String) (s1 s2 : List String)
    (h : ∀ x, x ∈ s1 ↔ x ∈ s2) : firstSeenOrder s1 l = firstSeenOrder s2 l := by
  induction l generalizing s1 s2 with
  | nil => rfl
  | cons t ts ih =>
      by_cases ht : t ∈ s1
      · simp [firstSeenOrder, ht, (h t).mp ht, ih s1 s2 h]
      · have ht2 : t ∉ s2 := fun hh => ht ((h t).mpr hh)
        have hstep : ∀ x, x ∈ s1 ++ [t] ↔ x ∈ s2 ++ [t] := by
          intro x; simp [h x]
        simp [firstSeenOrder, ht, ht2, ih (s1 ++ [t]) (s2 ++ [t]) hstep]

theorem mem_firstSeenOrder (l : List String) (seen : List String) (x : String) :
    x ∈ firstSeenOrder seen l ↔ x ∈ l ∧ x ∉ seen := by
  induction l generalizing seen with
  | nil => simp [firstSeenOrder]
  | cons t ts ih =>
      by_cases ht : t ∈ seen
      · rw [firstSeenOrder, if_pos ht, ih]
        constructor
        · exact fun ⟨h1, h2⟩ => ⟨List.mem_cons_of_mem t h1, h2⟩
        · rintro ⟨h1, h2⟩
          rcases List.mem_cons.mp h1 with rfl | h1
          · exact absurd ht h2
          · exact ⟨h1, h2⟩
      · rw [firstSeenOrder, if_neg ht]
        by_cases hx : x = t
        · subst hx; simp [ht]
        · simp only [List.mem_cons, hx, false_or, ih, List.mem_append,
            List.mem_singleton, or_false]
          tauto

theorem nodup_firstSeenOrder (l : List String) (seen : List String) :
    (firstSeenOrder seen l).Nodup := by
  induction l generalizing seen with
  | nil => simp [firstSeenOrder]
  | cons t ts ih =>
      by_cases ht : t ∈ seen
      · rw [firstSeenOrder, if_pos ht]; exact ih seen
      · rw [firstSeenOrder, if_neg ht]
        refine List.nodup_cons.mpr ⟨?_, ih (seen ++ [t])⟩
        rw [mem_firstSeenOrder]
        rintro ⟨-, habs⟩
        exact habs (by simp)

/-! ### The aggregation-loop invariant -/

theorem aggStep_spec (st st1 : AggState) (row : Row) (c m : ℚ)
    (hg : goodState st)
    (hc : pyFloat? row.cpu_pct = some c) (hm : pyFloat? row.mem_pct = some m)
    (h : aggStep st row = some st1) :
    (∀ t, lookupCpu st1.aggregated t
        = lookupCpu st.aggregated t + (if row.time = t then c else 0)) ∧
    (∀ t, lookupMem st1.aggregated t
        = lookupMem st.aggregated t + (if row.time = t then m else 0)) ∧
    st1.time_order
      = (if row.time ∈ st.time_order then st.time_order
         else st.time_order ++ [row.time]) ∧
    goodState st1 := by
  rw [aggStep, hc, hm] at h
  simp only [Option.bind_eq_bind, Option.some_bind, Option.pure_def,
    Option.some.injEq] at h
  by_cases hk : containsKey st.aggregated row.time = true
  · have hmem : row.time ∈ st.time_order := (hg row.time).mpr hk
    rw [if_pos hk] at h
    subst h
    refine ⟨fun t => lookupCpu_addToKey _ _ _ _ hk t,
            fun t => lookupMem_addToKey _ _ _ _ hk t,
            by simp [hmem], fun t => ?_⟩
    rw [containsKey_addToKey]
    exact hg t
  · have hmem : row.time ∉ st.time_order := fun hh => hk ((hg row.time).mp hh)
    rw [if_neg hk] at h
    subst h
    have hk2 : containsKey (st.aggregated ++ [(row.time, 0, 0)]) row.time = true := by
      rw [containsKey_append_single]; simp
    refine ⟨fun t => ?_, fun t => ?_, by simp [hmem], fun t => ?_⟩
    · rw [lookupCpu_addToKey _ _ _ _ hk2 t, lookupCpu_append_zero]
    · rw [lookupMem_addToKey _ _ _ _ hk2 t, lookupMem_append_zero]
    · rw [containsKey_addToKey, containsKey_append_single]
      simp only [List.mem_append, List.mem_singleton, hg t, Bool.or_eq_true, beq_iff_eq]
      constructor
      · rintro (h1 | rfl)
        · exact Or.inl h1
        · exact Or.inr rfl
      · rintro (h1 | rfl)
        · exact Or.inl h1
        · exact Or.inr rfl

theorem aggregate_spec (rows : List Row) (st st' : AggState)
    (hg : goodState st) (h : aggregate rows st = some st') :
    (∀ t, lookupCpu st'.aggregated t = lookupCpu st.aggregated t + sumCpu rows t) ∧
    (∀ t, lookupMem st'.aggregated t = lookupMem st.aggregated t + sumMem rows t) ∧
    st'.time_order = st.time_order ++ firstSeenOrder st.time_order (rows.map Row.time) ∧
    goodState st' := by
  induction rows generalizing st with
  | nil =>
      rw [aggregate, Option.some.injEq] at h
      subst h
      exact ⟨fun t => by simp [sumCpu], fun t => by simp [sumMem],
             by simp [firstSeenOrder], hg⟩
  | cons row rs ih =>
      rw [aggregate] at h
      cases hstep : aggStep st row with
      | none => rw [hstep] at h; simp at h
      | some st1 =>
          rw [hstep, Option.some_bind] at h
          cases hc : pyFloat? row.cpu_pct with
          | none => rw [aggStep, hc] at hstep; simp at hstep
          | some c =>
              cases hm : pyFloat? row.mem_pct with
              | none => rw [aggStep, hc, hm] at hstep; simp at hstep
              | some m =>
                  obtain ⟨hsc, hsm, hso, hsg⟩ := aggStep_spec st st1 row c m hg hc hm hstep
                  obtain ⟨ic, im, io, ig⟩ := ih st1 hsg h
                  refine ⟨fun t => ?_, fun t => ?_, ?_, ig⟩
                  · rw [ic t, hsc t, sumCpu]
                    have : floatValue row.cpu_pct = c := by
                      rw [floatValue, hc]; rfl
                    rw [this]
                    by_cases ht : row.time = t
                    · rw [if_pos ht]; ring
                    · rw [if_neg ht]; ring
                  · rw [im t, hsm t, sumMem]
                    have : floatValue row.mem_pct = m := by
                      rw [floatValue, hm]; rfl
                    rw [this]
                    by_cases ht : row.time = t
                    · rw [if_pos ht]; ring
                    · rw [if_neg ht]; ring
                  · rw [io, hso, List.map_cons, firstSeenOrder]
                    by_cases ht : row.time ∈ st.time_order
                    · rw [if_pos ht, if_pos ht]
                    · rw [if_neg ht, if_neg ht, List.append_assoc, List.singleton_append]

/-- Specialisation to the loop as `build_html` runs it (empty initial
state): the sums, the label order and the loop invariant in one place. -/
theorem runAgg_spec (rows : List Row) (st : AggState) (h : runAgg rows = some st) :
    (∀ t, lookupCpu st.aggregated t = sumCpu rows t) ∧
    (∀ t, lookupMem st.aggregated t = sumMem rows t) ∧
    st.time_order = firstSeenOrder [] (rows.map Row.time) ∧
    goodState st := by
  have hg : goodState { aggregated := [], time_order := [] } := by
    intro t; simp [containsKey]
  obtain ⟨hc, hm, ho, hgood⟩ := aggregate_spec rows _ st hg h
  exact ⟨fun t => by simpa [lookupCpu] using hc t,
         fun t => by simpa [lookupMem] using hm t,
         by simpa using ho, hgood⟩

/-! ### Order-independence of the sums -/

theorem sumCpu_perm (rows1 rows2 : List Row) (h : rows1.Perm rows2) (t : String) :
    sumCpu rows1 t = sumCpu rows2 t := by
  induction h with
  | nil => rfl
  | cons x _ ih => rw [sumCpu, sumCpu, ih]
  | swap x y l => rw [sumCpu, sumCpu, sumCpu, sumCpu]; ring
  | trans _ _ ih1 ih2 => rw [ih1, ih2]

theorem sumMem_perm (rows1 rows2 : List Row) (h : rows1.Perm rows2) (t : String) :
    sumMem rows1 t = sumMem rows2 t := by
  induction h with
  | nil => rfl
  | cons x _ ih => rw [sumMem, sumMem, ih]
  | swap x y l => rw [sumMem, sumMem, sumMem, sumMem]; ring
  | trans _ _ ih1 ih2 => rw [ih1, ih2]

/-! ### Parser lemmas -/

theorem parseLine_skipped (line : String) (h : isSkipped (pyStrip line.data) = true) :
    parseLine line = none := by
  rw [parseLine]
  simp [h]

theorem filterMap_parseLine_filter (ls : List String) :
    ls.filterMap parseLine
      = (ls.filter fun l => !isSkipped (pyStrip l.data)).filterMap parseLine := by
  induction ls with
  | nil => rfl
  | cons l rest ih =>
      by_cases hs : isSkipped (pyStrip l.data) = true
      · rw [List.filterMap_cons, parseLine_skipped l hs, List.filter_cons]
        simp [hs, ih]
      · rw [List.filterMap_cons, List.filter_cons]
        simp only [hs, Bool.not_false, if_true]
        rw [List.filterMap_cons]
        simp only [Bool.not_eq_true] at hs
        cases hp : parseLine l <;> simp [ih]

/-! ### Escaping lemmas -/

theorem singleton_data (c : Char) : (String.singleton c).data = [c] := rfl

theorem escapeChar_no_lt (c : Char) : '<' ∉ (escapeChar c).data := by
  rw [escapeChar]
  split_ifs with h1 h2 h3 h4 h5
  · decide
  · decide
  · decide
  · decide
  · decide
  · rw [singleton_data, List.mem_singleton]
    exact fun h => h2 h.symm

theorem escapeChar_no_gt (c : Char) : '>' ∉ (escapeChar c).data := by
  rw [escapeChar]
  split_ifs with h1 h2 h3 h4 h5
  · decide
  · decide
  · decide
  · decide
  · decide
  · rw [singleton_data, List.mem_singleton]
    exact fun h => h3 h.symm

theorem escapeChars_no_lt (cs : List Char) : '<' ∉ escapeChars cs := by
  induction cs with
  | nil => simp [escapeChars]
  | cons c rest ih =>
      rw [escapeChars]
      simp only [List.mem_append]
      rintro (h | h)
      · exact escapeChar_no_lt c h
      · exact ih h

theorem escapeChars_no_gt (cs : List Char) : '>' ∉ escapeChars cs := by
  induction cs with
  | nil => simp [escapeChars]
  | cons c rest ih =>
      rw [escapeChars]
      simp only [List.mem_append]
      rintro (h | h)
      · exact escapeChar_no_gt c h
      · exact ih h

theorem count_amp_escapeChar (c : Char) :
    (escapeChar c).data.count '&'
      = ((if c = '&' then 1 else 0) + (if c = '<' then 1 else 0)
         + (if c = '>' then 1 else 0) + (if c = '"' then 1 else 0)
         + (if c = '\'' then 1 else 0) : ℕ) := by
  by_cases h1 : c = '&'
  · subst h1; decide
  by_cases h2 : c = '<'
  · subst h2; decide
  by_cases h3 : c = '>'
  · subst h3; decide
  by_cases h4 : c = '"'
  · subst h4; decide
  by_cases h5 : c = '\''
  · subst h5; decide
  rw [escapeChar, if_neg h1, if_neg h2, if_neg h3, if_neg h4, if_neg h5,
    if_neg h1, if_neg h2, if_neg h3, if_neg h4, if_neg h5, singleton_data]
  have : ('&' : Char) ≠ c := fun h => h1 h.symm
  simp [List.count_cons, this, List.count_nil]

theorem count_amp_escapeChars (cs : List Char) :
    (escapeChars cs).count '&'
      = cs.count '&' + cs.count '<' + cs.count '>' + cs.count '"' + cs.count '\'' := by
  induction cs with
  | nil => rfl
  | cons c rest ih =>
      rw [escapeChars, List.count_append, count_amp_escapeChar, ih]
      simp only [List.count_cons, beq_iff_eq]
      by_cases h1 : c = '&' <;> by_cases h2 : c = '<' <;> by_cases h3 : c = '>'
        <;> by_cases h4 : c = '"' <;> by_cases h5 : c = '\''
        <;> simp [h1, h2, h3, h4, h5] <;> omega

/-! ### The claims -/

/-- C1: for an input line of `parse_pidstat_output` that is not excluded
as blank or a marker line, fewer than 17 whitespace-separated tokens
yield no record, and 17 or more yield exactly one record whose 17 named
fields hold the first 17 tokens in the fixed column-schema order
(`parse_pidstat_output` emits exactly the `parseLine` results of its
lines, one record per accepted line). -/
theorem C1_token_threshold_and_positional_fields (stdout line : String)
    (hskip : isSkipped (pyStrip line.data) = false) :
    parse_pidstat_output stdout = (pySplitLines stdout).filterMap parseLine ∧
    ((pyWords (pyStrip line.data)).length < 17 → parseLine line = none) ∧
    (17 ≤ (pyWords (pyStrip line.data)).length →
      parseLine line = some
        { time := (pyWords (pyStrip line.data)).getD 0 "",
          uid := (pyWords (pyStrip line.data)).getD 1 "",
          pid := (pyWords (pyStrip line.data)).getD 2 "",
          usr_pct := (pyWords (pyStrip line.data)).getD 3 "",
          system_pct := (pyWords (pyStrip line.data)).getD 4 "",
          guest_pct := (pyWords (pyStrip line.data)).getD 5 "",
          cpu_pct := (pyWords (pyStrip line.data)).getD 6 "",
          cpu := (pyWords (pyStrip line.data)).getD 7 "",
          minflt_s := (pyWords (pyStrip line.data)).getD 8 "",
          majflt_s := (pyWords (pyStrip line.data)).getD 9 "",
          vsz := (pyWords (pyStrip line.data)).getD 10 "",
          rss := (pyWords (pyStrip line.data)).getD 11 "",
          mem_pct := (pyWords (pyStrip line.data)).getD 12 "",
          kb_rd_s := (pyWords (pyStrip line.data)).getD 13 "",
          kb_wr_s := (pyWords (pyStrip line.data)).getD 14 "",
          kb_ccwr_s := (pyWords (pyStrip line.data)).getD 15 "",
          iodelay := (pyWords (pyStrip line.data)).getD 16 "" }) := by
  have hlen : TABLE_COLUMNS.length = 17 := rfl
  refine ⟨rfl, fun hlt => ?_, fun hge => ?_⟩
  · simp only [parseLine, hskip, Bool.false_eq_true, if_false]
    rw [if_pos (by omega)]
  · simp only [parseLine, hskip, Bool.false_eq_true, if_false]
    rw [if_neg (by omega)]

/-- C1 witness: a concrete padded 17-token sample line parses to exactly
the record with its tokens in schema order. -/
theorem C1_witness :
    parseLine " 09:30:01 1000 4242 1.0 0.5 0.0 1.5 3 12.0 0.0 10240 2048 0.2 0.0 0.0 0.0 0 " =
      some { time := "09:30:01", uid := "1000", pid := "4242", usr_pct := "1.0",
             system_pct := "0.5", guest_pct := "0.0", cpu_pct := "1.5", cpu := "3",
             minflt_s := "12.0", majflt_s := "0.0", vsz := "10240", rss := "2048",
             mem_pct := "0.2", kb_rd_s := "0.0", kb_wr_s := "0.0", kb_ccwr_s := "0.0",
             iodelay := "0" } := by
  have h := (C1_token_threshold_and_positional_fields ""
    " 09:30:01 1000 4242 1.0 0.5 0.0 1.5 3 12.0 0.0 10240 2048 0.2 0.0 0.0 0.0 0 "
    (by decide)).2.2 (by decide)
  rw [h]
  rfl

/-- C5: every line that after trimming is blank or begins with `Linux`,
`#` or `Average:` is excluded: removing all such lines from the input
does not change the parse result, for every input text. -/
theorem C5_marker_lines_excluded (stdout : String) :
    parse_pidstat_output stdout
      = ((pySplitLines stdout).filter
          fun l => !isSkipped (pyStrip l.data)).filterMap parseLine := by
  rw [parse_pidstat_output]
  exact filterMap_parseLine_filter _

/-- C3: a successful aggregation produces one point per distinct
timestamp of the input records (the order list is duplicate-free and
holds exactly the timestamps occurring in `rows`), and the point's CPU%
and memory% are the sums of the `cpu_pct`/`mem_pct` values of all
records sharing that timestamp. -/
theorem C3_sums_per_timestamp (rows : List Row) (st : AggState)
    (h : runAgg rows = some st) :
    st.time_order.Nodup ∧
    (∀ t, t ∈ st.time_order ↔ ∃ r ∈ rows, r.time = t) ∧
    (∀ t, lookupCpu st.aggregated t = sumCpu rows t) ∧
    (∀ t, lookupMem st.aggregated t = sumMem rows t) := by
  obtain ⟨hc, hm, ho, hg⟩ := runAgg_spec rows st h
  refine ⟨?_, fun t => ?_, hc, hm⟩
  · rw [ho]; exact nodup_firstSeenOrder _ _
  · rw [ho, mem_firstSeenOrder]
    simp [List.mem_map]

/-- C3 witness: two records at one timestamp with cpu% 10 and 20
aggregate to the single entry with summed cpu% 30 (and mem% 1.5 + 2.5 = 4). -/
theorem C3_witness :
    lookupCpu [("09:00:01", (30 : ℚ), 4)] "09:00:01"
      = sumCpu [mkSample "09:00:01" "101" "10" "1.5",
                mkSample "09:00:01" "102" "20" "2.5"] "09:00:01" ∧
    sumCpu [mkSample "09:00:01" "101" "10" "1.5",
            mkSample "09:00:01" "102" "20" "2.5"] "09:00:01" = 30 :=
  ⟨(C3_sums_per_timestamp
      [mkSample "09:00:01" "101" "10" "1.5", mkSample "09:00:01" "102" "20" "2.5"]
      { aggregated := [("09:00:01", 30, 4)], time_order := ["09:00:01"] }
      (by with_unfolding_all decide)).2.2.1 "09:00:01",
   by with_unfolding_all decide⟩

/-- C4: the chart label sequence equals the first-occurrence order of
the record timestamps, not a sorted order. -/
theorem C4_first_seen_label_order (rows : List Row) (d : ChartData)
    (h : chartData? rows = some d) :
    d.labels = firstSeenOrder [] (rows.map Row.time) := by
  rw [chartData?] at h
  cases hr : runAgg rows with
  | none => rw [hr] at h; simp at h
  | some st =>
      rw [hr] at h
      simp only [Option.map_some, Option.map_some', Option.some.injEq] at h
      obtain ⟨-, -, ho, -⟩ := runAgg_spec rows st hr
      rw [← h]
      simpa [chartOf] using ho

/-- C4 witness: timestamps arriving in reverse lexical order keep their
input order in the labels. -/
theorem C4_witness :
    (ChartData.mk ["09:00:02", "09:00:01"] [10, 20] [3/2, 5/2]).labels
      = firstSeenOrder []
          ([mkSample "09:00:02" "101" "10" "1.5",
            mkSample "09:00:01" "102" "20" "2.5"].map Row.time) ∧
    firstSeenOrder []
        ([mkSample "09:00:02" "101" "10" "1.5",
          mkSample "09:00:01" "102" "20" "2.5"].map Row.time)
      = ["09:00:02", "09:00:01"] :=
  ⟨C4_first_seen_label_order
      [mkSample "09:00:02" "101" "10" "1.5", mkSample "09:00:01" "102" "20" "2.5"]
      (ChartData.mk ["09:00:02", "09:00:01"] [10, 20] [3/2, 5/2])
      (by with_unfolding_all decide),
   by decide⟩

/-- C7: the three arrays of the chart-data literal (labels, cpu series,
mem series) always have equal length. -/
theorem C7_chart_arrays_equal_length (rows : List Row) (d : ChartData)
    (h : chartData? rows = some d) :
    d.labels.length = d.cpu.length ∧ d.labels.length = d.mem.length := by
  rw [chartData?] at h
  cases hr : runAgg rows with
  | none => rw [hr] at h; simp at h
  | some st =>
      rw [hr] at h
      simp only [Option.map_some, Option.map_some', Option.some.injEq] at h
      rw [← h]
      simp [chartOf]

/-- C7 witness: the equal-length property at a concrete two-timestamp input. -/
theorem C7_witness :
    (ChartData.mk ["09:00:01", "09:00:02"] [10, 20] [3/2, 5/2]).labels.length
        = (ChartData.mk ["09:00:01", "09:00:02"] [10, 20] [3/2, 5/2]).cpu.length ∧
    (ChartData.mk ["09:00:01", "09:00:02"] [10, 20] [3/2, 5/2]).labels.length
        = (ChartData.mk ["09:00:01", "09:00:02"] [10, 20] [3/2, 5/2]).mem.length :=
  C7_chart_arrays_equal_length
    [mkSample "09:00:01" "101" "10" "1.5", mkSample "09:00:02" "102" "20" "2.5"]
    (ChartData.mk ["09:00:01", "09:00:02"] [10, 20] [3/2, 5/2])
    (by with_unfolding_all decide)

/-- C8 (amended): under exact accumulation of the parsed values — the
real-valued reading of the loop — the aggregated sums are independent of
record order: permuting the records (in particular within one timestamp
group) leaves every timestamp's summed CPU% and memory% unchanged.
Under the program's binary64 accumulation this holds only up to
rounding; `C8_counterexample` exhibits a reordering that changes a
sum. -/
theorem C8_sums_order_independent (rows1 rows2 : List Row) (st1 st2 : AggState)
    (hperm : rows1.Perm rows2)
    (h1 : runAgg rows1 = some st1) (h2 : runAgg rows2 = some st2) (t : String) :
    lookupCpu st1.aggregated t = lookupCpu st2.aggregated t ∧
    lookupMem st1.aggregated t = lookupMem st2.aggregated t := by
  obtain ⟨c1, m1, -, -⟩ := runAgg_spec rows1 st1 h1
  obtain ⟨c2, m2, -, -⟩ := runAgg_spec rows2 st2 h2
  exact ⟨by rw [c1 t, c2 t]; exact sumCpu_perm _ _ hperm t,
         by rw [m1 t, m2 t]; exact sumMem_perm _ _ hperm t⟩

/-- C8 witness: swapping two records changes the dict order but not the
sums at timestamp `09:00:01`. -/
theorem C8_witness :
    lookupCpu [("09:00:01", (10 : ℚ), 3/2), ("09:00:02", 20, 5/2)] "09:00:01"
        = lookupCpu [("09:00:02", (20 : ℚ), 5/2), ("09:00:01", 10, 3/2)] "09:00:01" ∧
    lookupMem [("09:00:01", (10 : ℚ), 3/2), ("09:00:02", 20, 5/2)] "09:00:01"
        = lookupMem [("09:00:02", (20 : ℚ), 5/2), ("09:00:01", 10, 3/2)] "09:00:01" :=
  C8_sums_order_independent
    [mkSample "09:00:01" "101" "10" "1.5", mkSample "09:00:02" "102" "20" "2.5"]
    [mkSample "09:00:02" "102" "20" "2.5", mkSample "09:00:01" "101" "10" "1.5"]
    { aggregated := [("09:00:01", 10, 3/2), ("09:00:02", 20, 5/2)],
      time_order := ["09:00:01", "09:00:02"] }
    { aggregated := [("09:00:02", 20, 5/2), ("09:00:01", 10, 3/2)],
      time_order := ["09:00:02", "09:00:01"] }
    (List.Perm.swap _ _ _)
    (by with_unfolding_all decide) (by with_unfolding_all decide) "09:00:01"

section

attribute [local semireducible] Rat.add Rat.sub Rat.mul Rat.inv

/-- C8 counterexample: the original claim — permuting records within a
timestamp group never changes the aggregated sums — is false for the
accumulation the interpreter actually performs, which rounds every
`+=` to binary64.  Three records at one timestamp with cpu% 10^16, 1, 1
sum to 10^16 in this order (each `+ 1` is rounded away, the tie going to
the even significand) but to 10^16 + 2 with the large value last
(1 + 1 = 2 is exact, and 10^16 + 2 is representable), so one permuted
group yields two different CPU% sums. -/
theorem C8_counterexample :
    [mkSample "09:00:01" "101" "10000000000000000" "1.0",
     mkSample "09:00:01" "102" "1" "1.0",
     mkSample "09:00:01" "103" "1" "1.0"].Perm
      [mkSample "09:00:01" "102" "1" "1.0",
       mkSample "09:00:01" "103" "1" "1.0",
       mkSample "09:00:01" "101" "10000000000000000" "1.0"] ∧
    runAgg64
        [mkSample "09:00:01" "101" "10000000000000000" "1.0",
         mkSample "09:00:01" "102" "1" "1.0",
         mkSample "09:00:01" "103" "1" "1.0"]
      = some { aggregated := [("09:00:01", mkRat 10000000000000000 1, mkRat 3 1)],
               time_order := ["09:00:01"] } ∧
    runAgg64
        [mkSample "09:00:01" "102" "1" "1.0",
         mkSample "09:00:01" "103" "1" "1.0",
         mkSample "09:00:01" "101" "10000000000000000" "1.0"]
      = some { aggregated := [("09:00:01", mkRat 10000000000000002 1, mkRat 3 1)],
               time_order := ["09:00:01"] } ∧
    mkRat 10000000000000000 1 ≠ mkRat 10000000000000002 1 := by
  exact ⟨by decide, by decide, by decide, by decide⟩

end

/-- C6: the table cells and the preformatted raw block are built from
`htmlEscape` values, and an escaped value contains no raw `<` or `>`;
every occurrence of `&`, `<`, `>` (and of the quote characters) in the
source value appears in the output as exactly one entity, marked by its
leading `&`, so none of those characters survives as raw markup. -/
theorem C6_cells_and_pre_escaped (s raw : String) (row : Row) :
    escaped_raw_output raw = htmlEscape raw ∧
    rowCell row
      = "<tr><td>" ++ htmlEscape row.time ++ "</td><td>" ++ htmlEscape row.pid
          ++ "</td><td>" ++ htmlEscape row.cpu_pct ++ "</td><td>"
          ++ htmlEscape row.mem_pct ++ "</td></tr>" ∧
    '<' ∉ (htmlEscape s).data ∧
    '>' ∉ (htmlEscape s).data ∧
    (htmlEscape s).data.count '&'
      = s.data.count '&' + s.data.count '<' + s.data.count '>'
          + s.data.count '"' + s.data.count '\'' := by
  refine ⟨rfl, rfl, ?_, ?_, ?_⟩
  · exact escapeChars_no_lt s.data
  · exact escapeChars_no_gt s.data
  · exact count_amp_escapeChars s.data

/-- C9: the sampler's argument vector is the tool name, the combined
`-durh` flags (user/disk/resource/thread-hierarchy statistics), the
`-p` selector whose value is `ALL` without a pid and the decimal pid
otherwise, then interval and count as positional arguments. -/
theorem C9_command_line (pid : Option Int) (interval count : Int) :
    (run_pidstat_command pid interval count).take 3 = ["pidstat", "-durh", "-p"] ∧
    (run_pidstat_command pid interval count).getD 3 ""
      = (match pid with | none => "ALL" | some p => toString p) ∧
    (run_pidstat_command pid interval count).drop 4
      = [toString interval, toString count] := by
  cases pid <;> exact ⟨rfl, rfl, rfl⟩

/-- C2 counterexample: on a 17-token line whose cpu% field is not
numeric, the parser accepts a row, yet the run ends in the unhandled
conversion error — a third fatal, non-zero-exit condition that is
neither the subprocess failure nor the empty-parse error, refuting
"exactly two fatal conditions". -/
theorem C2_counterexample :
    parse_pidstat_output
        "09:00:01 0 42 1.0 2.0 0.0 abc 3 0.0 0.0 1000 2000 1.5 0.0 0.0 0.0 0" ≠ [] ∧
    mainRun (.ok "09:00:01 0 42 1.0 2.0 0.0 abc 3 0.0 0.0 1000 2000 1.5 0.0 0.0 0.0 0")
        = .conversionError ∧
    exitCodeZero
        (mainRun (.ok "09:00:01 0 42 1.0 2.0 0.0 abc 3 0.0 0.0 1000 2000 1.5 0.0 0.0 0.0 0"))
        = false ∧
    (∀ code, MainOutcome.conversionError ≠ .subprocessFailure code) ∧
    (∀ msg, MainOutcome.conversionError ≠ .noRowsError msg) := by
  refine ⟨by with_unfolding_all decide, by with_unfolding_all decide,
          by with_unfolding_all decide, fun code => ?_, fun msg => ?_⟩
  · intro h; cases h
  · intro h; cases h

/-- C2 (amended): the two spec-named fatal conditions behave as stated —
a non-zero pidstat exit propagates as the subprocess failure, and an
empty parse raises the user-facing error; both terminate with non-zero
status and neither reaches `write_report` — but they are not the only
fatal conditions (see the `float()` conversion error of C10). -/
theorem C2_named_fatal_conditions (code : Int) (stdout : String)
    (hempty : parse_pidstat_output stdout = []) :
    mainRun (.failed code) = .subprocessFailure code ∧
    exitCodeZero (mainRun (.failed code)) = false ∧
    writesReport (mainRun (.failed code)) = false ∧
    mainRun (.ok stdout) = .noRowsError noRowsMsg ∧
    exitCodeZero (mainRun (.ok stdout)) = false ∧
    writesReport (mainRun (.ok stdout)) = false := by
  have hrun : mainRun (.ok stdout) = .noRowsError noRowsMsg := by
    rw [mainRun]
    simp [hempty]
  exact ⟨rfl, rfl, rfl, hrun, by rw [hrun]; rfl, by rw [hrun]; rfl⟩

/-- C2 witness: pidstat exit code 2, and an output of only banner,
comment and average lines: the empty-parse error fires and no report is
written. -/
theorem C2_witness :
    mainRun (.failed 2) = .subprocessFailure 2 ∧
    exitCodeZero (mainRun (.failed 2)) = false ∧
    writesReport (mainRun (.failed 2)) = false ∧
    mainRun (.ok "Linux 5.15.0 (host) \n# Time UID PID\nAverage: 0 42 1.0")
      = .noRowsError noRowsMsg ∧
    exitCodeZero (mainRun (.ok "Linux 5.15.0 (host) \n# Time UID PID\nAverage: 0 42 1.0"))
      = false ∧
    writesReport (mainRun (.ok "Linux 5.15.0 (host) \n# Time UID PID\nAverage: 0 42 1.0"))
      = false :=
  C2_named_fatal_conditions 2 "Linux 5.15.0 (host) \n# Time UID PID\nAverage: 0 42 1.0"
    (by decide)

/-- C10: `build_html` converts `cpu_pct`/`mem_pct` without a guard, so a
17-token line whose cpu% field is the non-numeric `abc` is accepted by
the parser (which validates only field count) yet makes `build_html`
raise `ValueError` — a crash distinct from the two spec-named fatal
conditions. -/
theorem C10_unguarded_float_conversion :
    parse_pidstat_output
        "09:05:01 0 7 1.0 2.0 0.0 abc 3 0.0 0.0 1000 2000 1.5 0.0 0.0 0.0 0" ≠ [] ∧
    build_html?
        (parse_pidstat_output
          "09:05:01 0 7 1.0 2.0 0.0 abc 3 0.0 0.0 1000 2000 1.5 0.0 0.0 0.0 0")
        "09:05:01 0 7 1.0 2.0 0.0 abc 3 0.0 0.0 1000 2000 1.5 0.0 0.0 0.0 0" = none ∧
    mainRun (.ok "09:05:01 0 7 1.0 2.0 0.0 abc 3 0.0 0.0 1000 2000 1.5 0.0 0.0 0.0 0")
        = .conversionError := by
  exact ⟨by with_unfolding_all decide, by with_unfolding_all decide,
         by with_unfolding_all decide⟩

end Plotter
